import Mathlib

set_option maxRecDepth 8000

/-!
Shallow embedding of the Recurring Transaction Projection & Materialization
Engine of the savings-tracker repository (src/savings-tracker/src/projections.ts
and src/savings-tracker/backend/scheduler.js, which also carries the REST
transaction routes).

Modelling conventions.

JavaScript `Date` values: every date the engine works with is normalized to
local noon (`normalizeToNoon` in projections.ts, `setHours(12,0,0,0)` in the
scheduler), so only the civil calendar day matters.  A date is modelled as a
`CivilDate` (year, month 1-12, day 1-31); `daysSinceEpoch` is the linearization
used for date comparison and day stepping (`setDate(getDate() + k)` adds `k` to
the day number, with month and year rollover, which `nextDay`/`addDays` model
directly on the civil form).  Weekday reckoning follows JavaScript `getDay`:
0 = Sunday .. 6 = Saturday, with 1970-01-01 a Thursday.

Numbers: JavaScript numbers that only ever undergo field arithmetic are
modelled as `ℚ`; the projection calculator additionally computes
`Math.pow(1 + rate/100, 1/12)`, so its running balance lives in `ℝ` with the
real power function standing in for `Math.pow`.
-/

/-- Gregorian leap-year test, as JavaScript `Date` and date-fns implement it. -/
def isLeapYear (y : Nat) : Bool := (y % 4 == 0 && y % 100 != 0) || (y % 400 == 0)

/-- Number of days of year `y`. -/
def daysInYear (y : Nat) : Nat := if isLeapYear y then 366 else 365

/-- Number of days of month `m` (1-12) of year `y`. -/
def daysInMonth (y m : Nat) : Nat :=
  if m = 2 then (if isLeapYear y then 29 else 28)
  else if m = 4 ∨ m = 6 ∨ m = 9 ∨ m = 11 then 30 else 31

/-- A JavaScript `Date` normalized to noon: only the civil calendar day is
kept. -/
structure CivilDate where
  year : Nat
  month : Nat
  day : Nat
deriving DecidableEq

/-- Days since 1970-01-01 (JavaScript's epoch). -/
def daysSinceEpoch : CivilDate → Nat
  | ⟨y, m, d⟩ =>
    ((List.range (y - 1970)).map (fun i => daysInYear (1970 + i))).sum +
      ((List.range (m - 1)).map (fun j => daysInMonth y (j + 1))).sum +
      (d - 1)

/-- JavaScript `getDay`: 0 = Sunday .. 6 = Saturday; 1970-01-01 was a
Thursday (4). -/
def dayOfWeek (d : CivilDate) : Nat := (daysSinceEpoch d + 4) % 7

/-- A well-formed calendar date in the era the application lives in. -/
def ValidDate : CivilDate → Prop
  | ⟨y, m, d⟩ => 1970 ≤ y ∧ 1 ≤ m ∧ m ≤ 12 ∧ 1 ≤ d ∧ d ≤ daysInMonth y m

instance (d : CivilDate) : Decidable (ValidDate d) :=
  match d with
  | ⟨y, m, dd⟩ =>
    inferInstanceAs (Decidable (1970 ≤ y ∧ 1 ≤ m ∧ m ≤ 12 ∧ 1 ≤ dd ∧ dd ≤ daysInMonth y m))

/-- JavaScript `setDate(getDate() + 1)`: the next calendar day, with month and
year rollover. -/
def nextDay : CivilDate → CivilDate
  | ⟨y, m, d⟩ =>
    if d < daysInMonth y m then ⟨y, m, d + 1⟩
    else if m < 12 then ⟨y, m + 1, 1⟩
    else ⟨y + 1, 1, 1⟩

/-- JavaScript `setDate(getDate() + n)` for `n ≥ 0`. -/
def addDays (d : CivilDate) : Nat → CivilDate
  | 0 => d
  | n + 1 => nextDay (addDays d n)

/-- `addWeeksFromOriginal` of projections.ts: normalize to noon (a no-op here)
and `setDate(getDate() + weeks * 7)`. -/
def addWeeksFromOriginal (originalDate : CivilDate) (weeks : Nat) : CivilDate :=
  addDays originalDate (weeks * 7)

theorem one_le_daysInMonth (y m : Nat) : 1 ≤ daysInMonth y m := by
  unfold daysInMonth
  split
  · split <;> omega
  · split <;> omega

theorem range_map_sum_succ (f : Nat → Nat) (n : Nat) :
    ((List.range (n + 1)).map f).sum = ((List.range n).map f).sum + f n := by
  simp [List.range_succ]

theorem month_sum_eq_daysInYear (y : Nat) :
    ((List.range 12).map (fun j => daysInMonth y (j + 1))).sum = daysInYear y := by
  have h12 : List.range 12 = [0, 1, 2, 3, 4, 5, 6, 7, 8, 9, 10, 11] := by decide
  rw [h12]
  cases h : isLeapYear y <;> simp [daysInMonth, daysInYear, h]

theorem daysSinceEpoch_nextDay (d : CivilDate) (hd : ValidDate d) :
    daysSinceEpoch (nextDay d) = daysSinceEpoch d + 1 := by
  obtain ⟨y, mo, dy⟩ := d
  obtain ⟨h70, hm1, hm12, hd1, hdm⟩ := hd
  have hnd : nextDay ⟨y, mo, dy⟩ =
      if dy < daysInMonth y mo then ⟨y, mo, dy + 1⟩
      else if mo < 12 then ⟨y, mo + 1, 1⟩ else ⟨y + 1, 1, 1⟩ := rfl
  rw [hnd]
  split_ifs with h1 h2
  · simp only [daysSinceEpoch]
    omega
  · obtain ⟨m, rfl⟩ : ∃ m, mo = m + 1 := ⟨mo - 1, by omega⟩
    simp only [daysSinceEpoch, Nat.add_sub_cancel]
    rw [range_map_sum_succ]
    omega
  · have hm : mo = 12 := by omega
    subst hm
    have hy : y + 1 - 1970 = (y - 1970) + 1 := by omega
    simp only [daysSinceEpoch, hy]
    rw [range_map_sum_succ]
    have h1970 : 1970 + (y - 1970) = y := by omega
    rw [h1970]
    have hsum := month_sum_eq_daysInYear y
    have h11 := range_map_sum_succ (fun j => daysInMonth y (j + 1)) 11
    simp only [show (11 : Nat) + 1 = 12 from rfl] at h11
    simp only [show (12 : Nat) - 1 = 11 from rfl, show (1 : Nat) - 1 = 0 from rfl,
      List.range_zero, List.map_nil, List.sum_nil]
    omega

theorem validDate_nextDay (d : CivilDate) (hd : ValidDate d) :
    ValidDate (nextDay d) := by
  obtain ⟨y, mo, dy⟩ := d
  obtain ⟨h70, hm1, hm12, hd1, hdm⟩ := hd
  have hnd : nextDay ⟨y, mo, dy⟩ =
      if dy < daysInMonth y mo then ⟨y, mo, dy + 1⟩
      else if mo < 12 then ⟨y, mo + 1, 1⟩ else ⟨y + 1, 1, 1⟩ := rfl
  rw [hnd]
  split_ifs with h1 h2
  · exact ⟨h70, hm1, hm12, by omega, by omega⟩
  · exact ⟨h70, by omega, by omega, le_refl 1, one_le_daysInMonth _ _⟩
  · exact ⟨by omega, le_refl 1, by omega, le_refl 1, one_le_daysInMonth _ _⟩

theorem daysSinceEpoch_addDays (d : CivilDate) (hd : ValidDate d) (n : Nat) :
    daysSinceEpoch (addDays d n) = daysSinceEpoch d + n ∧ ValidDate (addDays d n) := by
  induction n with
  | zero =>
    have h0 : addDays d 0 = d := rfl
    rw [h0]
    exact ⟨by omega, hd⟩
  | succ n ih =>
    have hstep : addDays d (n + 1) = nextDay (addDays d n) := rfl
    constructor
    · rw [hstep, daysSinceEpoch_nextDay _ ih.2, ih.1]
      omega
    · rw [hstep]
      exact validDate_nextDay _ ih.2

/-- Claim C6: advancing a date by `n` weeks with `addWeeksFromOriginal` lands
exactly `7 n` calendar days later, hence on the same day of week, across month
and year boundaries. -/
theorem C6_addWeeks_preserves_weekday (d : CivilDate) (n : Nat) (hd : ValidDate d) :
    daysSinceEpoch (addWeeksFromOriginal d n) = daysSinceEpoch d + 7 * n ∧
      dayOfWeek (addWeeksFromOriginal d n) = dayOfWeek d := by
  obtain ⟨h1, _⟩ := daysSinceEpoch_addDays d hd (n * 7)
  have h1' : daysSinceEpoch (addWeeksFromOriginal d n) = daysSinceEpoch d + 7 * n := by
    rw [addWeeksFromOriginal, h1]; ring
  refine ⟨h1', ?_⟩
  unfold dayOfWeek
  rw [h1']
  omega

/-- Witness for C6: Friday 2024-12-27 advanced by one week is Friday
2025-01-03. -/
theorem C6_addWeeks_preserves_weekday_witness :
    ValidDate ⟨2024, 12, 27⟩ ∧ dayOfWeek ⟨2024, 12, 27⟩ = 5 ∧
      addWeeksFromOriginal ⟨2024, 12, 27⟩ 1 = ⟨2025, 1, 3⟩ ∧
      (daysSinceEpoch (addWeeksFromOriginal ⟨2024, 12, 27⟩ 1) =
          daysSinceEpoch ⟨2024, 12, 27⟩ + 7 * 1 ∧
        dayOfWeek (addWeeksFromOriginal ⟨2024, 12, 27⟩ 1) = dayOfWeek ⟨2024, 12, 27⟩) :=
  ⟨by decide, by decide, by decide,
    C6_addWeeks_preserves_weekday ⟨2024, 12, 27⟩ 1 (by decide)⟩

/-- JavaScript `getDay` on a date given by its day number (days since the
epoch, possibly negative): 1970-01-01 was a Thursday (4). -/
def getDayNum (n : ℤ) : ℤ := (n + 4) % 7

/-- First loop of `countWeekdayOccurrences` in projections.ts: step one day at
a time to the first occurrence of the target weekday that is not past `endD`
(`while (getDay(current) !== targetDay && current <= end) current.setDate(...+1)`).
Dates are day numbers, as the function only steps days and compares dates. -/
def seekWeekday (current endD target : ℤ) : ℤ :=
  if getDayNum current ≠ target ∧ current ≤ endD then seekWeekday (current + 1) endD target
  else current
termination_by (endD + 1 - current).toNat
decreasing_by omega

/-- Second loop of `countWeekdayOccurrences`: count in strides of 7 days
(`while (current <= end) count++ ... setDate(...+7)`). -/
def strideWeek (current endD : ℤ) : ℕ :=
  if current ≤ endD then strideWeek (current + 7) endD + 1 else 0
termination_by (endD + 1 - current).toNat
decreasing_by omega

/-- `countWeekdayOccurrences` of projections.ts on day numbers: seek the first
occurrence of the target weekday, then count every 7 days up to `endDate`. -/
def countWeekdayOccurrences (startDate endDate targetDay : ℤ) : ℕ :=
  strideWeek (seekWeekday startDate endDate targetDay) endDate

/-- The dates of the inclusive range of day numbers, in order. -/
def datesInRange (s e : ℤ) : List ℤ :=
  (List.range (e + 1 - s).toNat).map (fun i : ℕ => s + (i : ℤ))

/-- The exact number of dates in the inclusive range falling on the given
weekday: the specification-side count the code must realize. -/
def weekdayDatesCount (s e w : ℤ) : ℕ :=
  (datesInRange s e).countP (fun x => decide (getDayNum x = w))

theorem seekWeekday_stop (current endD target : ℤ)
    (h : getDayNum current = target ∨ endD < current) :
    seekWeekday current endD target = current := by
  have hc : ¬(getDayNum current ≠ target ∧ current ≤ endD) := by
    rcases h with h | h
    · intro hx
      exact hx.1 h
    · intro hx
      omega
  rw [seekWeekday, if_neg hc]

theorem seekWeekday_step (current endD target : ℤ)
    (h1 : getDayNum current ≠ target) (h2 : current ≤ endD) :
    seekWeekday current endD target = seekWeekday (current + 1) endD target := by
  conv_lhs => rw [seekWeekday]
  rw [if_pos ⟨h1, h2⟩]

theorem strideWeek_stop (current endD : ℤ) (h : endD < current) :
    strideWeek current endD = 0 := by
  rw [strideWeek, if_neg (by omega)]

theorem strideWeek_step (current endD : ℤ) (h : current ≤ endD) :
    strideWeek current endD = strideWeek (current + 7) endD + 1 := by
  conv_lhs => rw [strideWeek]
  rw [if_pos h]

theorem weekdayDatesCount_nil (s e w : ℤ) (h : e < s) : weekdayDatesCount s e w = 0 := by
  unfold weekdayDatesCount datesInRange
  have h0 : (e + 1 - s).toNat = 0 := by omega
  rw [h0]
  simp

theorem weekdayDatesCount_cons (s e w : ℤ) (h : s ≤ e) :
    weekdayDatesCount s e w =
      (if getDayNum s = w then 1 else 0) + weekdayDatesCount (s + 1) e w := by
  unfold weekdayDatesCount datesInRange
  have hk : (e + 1 - s).toNat = (e + 1 - (s + 1)).toNat + 1 := by omega
  rw [hk, List.range_succ_eq_map]
  simp only [List.map_cons, List.countP_cons, List.map_map]
  have hmap : ((fun i : ℕ => s + (i : ℤ)) ∘ Nat.succ) = fun i : ℕ => (s + 1) + (i : ℤ) := by
    funext i
    simp only [Function.comp_apply, Nat.succ_eq_add_one, Nat.cast_add, Nat.cast_one]
    ring
  rw [hmap]
  simp only [Nat.cast_zero, Int.add_zero, decide_eq_true_eq]
  exact Nat.add_comm _ _

theorem weekdayDatesCount_step_ne (t e w : ℤ) (h : getDayNum t ≠ w) :
    weekdayDatesCount t e w = weekdayDatesCount (t + 1) e w := by
  by_cases ht : t ≤ e
  · rw [weekdayDatesCount_cons t e w ht, if_neg h, Nat.zero_add]
  · rw [weekdayDatesCount_nil t e w (by omega), weekdayDatesCount_nil (t + 1) e w (by omega)]

theorem getDayNum_add_seven (x : ℤ) : getDayNum (x + 7) = getDayNum x := by
  unfold getDayNum
  omega

theorem weekdayDatesCount_seven (s e w : ℤ) (h : getDayNum s = w) :
    weekdayDatesCount (s + 1) e w = weekdayDatesCount (s + 7) e w := by
  have hne : ∀ k : ℤ, 1 ≤ k → k ≤ 6 → getDayNum (s + k) ≠ w := by
    intro k h1 h6
    unfold getDayNum at h ⊢
    omega
  rw [weekdayDatesCount_step_ne (s + 1) e w (hne 1 (by omega) (by omega)),
    show s + 1 + 1 = s + 2 from by ring,
    weekdayDatesCount_step_ne (s + 2) e w (hne 2 (by omega) (by omega)),
    show s + 2 + 1 = s + 3 from by ring,
    weekdayDatesCount_step_ne (s + 3) e w (hne 3 (by omega) (by omega)),
    show s + 3 + 1 = s + 4 from by ring,
    weekdayDatesCount_step_ne (s + 4) e w (hne 4 (by omega) (by omega)),
    show s + 4 + 1 = s + 5 from by ring,
    weekdayDatesCount_step_ne (s + 5) e w (hne 5 (by omega) (by omega)),
    show s + 5 + 1 = s + 6 from by ring,
    weekdayDatesCount_step_ne (s + 6) e w (hne 6 (by omega) (by omega)),
    show s + 6 + 1 = s + 7 from by ring]

theorem countWeekdayOccurrences_eq_spec (s e w : ℤ) :
    countWeekdayOccurrences s e w = weekdayDatesCount s e w := by
  suffices H : ∀ n : ℕ, ∀ s : ℤ, (e + 1 - s).toNat ≤ n →
      countWeekdayOccurrences s e w = weekdayDatesCount s e w by
    exact H (e + 1 - s).toNat s le_rfl
  intro n
  induction n with
  | zero =>
    intro s hs
    have hlt : e < s := by omega
    rw [weekdayDatesCount_nil s e w hlt]
    unfold countWeekdayOccurrences
    rw [seekWeekday_stop s e w (Or.inr hlt), strideWeek_stop s e hlt]
  | succ n ih =>
    intro s hs
    by_cases hle : s ≤ e
    · by_cases hw : getDayNum s = w
      · unfold countWeekdayOccurrences
        rw [seekWeekday_stop s e w (Or.inl hw), strideWeek_step s e hle]
        have hseek7 : seekWeekday (s + 7) e w = s + 7 := by
          by_cases h7 : s + 7 ≤ e
          · exact seekWeekday_stop (s + 7) e w (Or.inl (by rw [getDayNum_add_seven, hw]))
          · exact seekWeekday_stop (s + 7) e w (Or.inr (by omega))
        have hc7 : strideWeek (s + 7) e = countWeekdayOccurrences (s + 7) e w := by
          unfold countWeekdayOccurrences
          rw [hseek7]
        rw [hc7, ih (s + 7) (by omega)]
        rw [weekdayDatesCount_cons s e w hle, if_pos hw, weekdayDatesCount_seven s e w hw]
        omega
      · unfold countWeekdayOccurrences
        rw [seekWeekday_step s e w hw hle]
        have h1 : countWeekdayOccurrences (s + 1) e w = weekdayDatesCount (s + 1) e w :=
          ih (s + 1) (by omega)
        unfold countWeekdayOccurrences at h1
        rw [h1, weekdayDatesCount_step_ne s e w hw]
    · have hlt : e < s := by omega
      rw [weekdayDatesCount_nil s e w hlt]
      unfold countWeekdayOccurrences
      rw [seekWeekday_stop s e w (Or.inr hlt), strideWeek_stop s e hlt]

theorem weekdayDatesCount_31 (s w : ℤ) (h0 : 0 ≤ w) (h7 : w < 7) :
    weekdayDatesCount s (s + 30) w = 4 ∨ weekdayDatesCount s (s + 30) w = 5 := by
  unfold weekdayDatesCount datesInRange
  have h31 : (s + 30 + 1 - s).toNat = 31 := by omega
  rw [h31, List.countP_map]
  have ht0 : 0 ≤ (w - 4 - s) % 7 := Int.emod_nonneg _ (by norm_num)
  have ht7 : (w - 4 - s) % 7 < 7 := Int.emod_lt_of_pos _ (by norm_num)
  have hcong : ∀ i ∈ List.range 31,
      ((fun x => decide (getDayNum x = w)) ∘ fun i : ℕ => s + (i : ℤ)) i = true ↔
        (fun i : ℕ => decide ((i : ℤ) % 7 = (w - 4 - s) % 7)) i = true := by
    intro i hi
    simp only [Function.comp_apply, decide_eq_true_eq]
    unfold getDayNum
    omega
  rw [List.countP_congr hcong]
  generalize hgen : (w - 4 - s) % 7 = t at ht0 ht7
  interval_cases t
  · decide
  · decide
  · decide
  · decide
  · decide
  · decide
  · decide

/-- Claim C7: `countWeekdayOccurrences` returns 0 on an inverted range, always
returns the exact number of dates of the inclusive range falling on the target
weekday, and on a 31-day range (a full 31-day calendar month) that number is 4
or 5. -/
theorem C7_countWeekdayOccurrences_correct (s e w : ℤ) :
    (e < s → countWeekdayOccurrences s e w = 0) ∧
      countWeekdayOccurrences s e w = weekdayDatesCount s e w ∧
      (0 ≤ w → w < 7 → e = s + 30 →
        countWeekdayOccurrences s e w = 4 ∨ countWeekdayOccurrences s e w = 5) := by
  refine ⟨?_, countWeekdayOccurrences_eq_spec s e w, ?_⟩
  · intro hlt
    rw [countWeekdayOccurrences_eq_spec s e w]
    exact weekdayDatesCount_nil s e w hlt
  · intro h0 h7 h30
    subst h30
    rw [countWeekdayOccurrences_eq_spec s (s + 30) w]
    exact weekdayDatesCount_31 s w h0 h7

/-- Witness for C7 at concrete inputs: an inverted range counts 0; June 2025
(day numbers 20239..20268, a 30-day month) has its counts match the exact
enumeration; a 31-day window counts Mondays 4 or 5 times. -/
theorem C7_countWeekdayOccurrences_correct_witness :
    countWeekdayOccurrences 20 10 3 = 0 ∧
      countWeekdayOccurrences 0 6 4 = weekdayDatesCount 0 6 4 ∧
      (countWeekdayOccurrences 100 130 1 = 4 ∨ countWeekdayOccurrences 100 130 1 = 5) :=
  ⟨(C7_countWeekdayOccurrences_correct 20 10 3).1 (by decide),
    (C7_countWeekdayOccurrences_correct 0 6 4).2.1,
    (C7_countWeekdayOccurrences_correct 100 130 1).2.2 (by decide) (by decide) (by decide)⟩

/-- The day number of a civil date, as a signed integer. -/
def dayNumber (d : CivilDate) : ℤ := (daysSinceEpoch d : ℤ)

/-- Absolute month index of a civil date: year * 12 + (month - 1).  date-fns
month arithmetic (`addMonths`, `startOfMonth`, `eachMonthOfInterval`,
`isSameMonth`) acts on this index. -/
def monthIndex (d : CivilDate) : ℤ := (d.year : ℤ) * 12 + (d.month : ℤ) - 1

/-- Day number of the first day of the month with absolute index `M`
(`startOfMonth`).  Meaningful for the months the application lives in
(`M ≥ 1970 * 12`). -/
def monthFirstDay (M : ℤ) : ℤ :=
  (daysSinceEpoch ⟨(M / 12).toNat, (M % 12).toNat + 1, 1⟩ : ℤ)

/-- Day number of the last day of month `M` (`endOfMonth`). -/
def monthLastDay (M : ℤ) : ℤ := monthFirstDay (M + 1) - 1

/-- The pot fields the projection calculator reads (types.ts `SavingsPot`;
name, description, target, color and timestamps are never read by the engine
and are omitted). -/
structure SavingsPot where
  id : String
  currentTotal : ℚ
  interestRate : Option ℚ
deriving DecidableEq

/-- types.ts `Transaction` (`createdAt` is copied but never read by the engine
and is omitted).  A transaction with a repeat flag set doubles as the
recurring rule anchored at its `date`. -/
structure Transaction where
  id : String
  userId : String
  potId : String
  amount : ℚ
  date : CivilDate
  description : Option String
  repeatMonthly : Bool
  repeatWeekly : Bool
deriving DecidableEq

/-- types.ts `ProjectionData`: one point of the forecast; `date` is the month
(its absolute index). -/
structure ProjectionData where
  date : ℤ
  amount : ℝ
  projected : Bool

/-- types.ts `SavingsProjection` (the optional `targetDate` and
`monthlyContribution` fields are never produced by `calculateProjection`). -/
structure SavingsProjection where
  potId : String
  data : List ProjectionData

/-- The `n` months starting at index `a`, ascending. -/
def monthsAsc (a : ℤ) (n : ℕ) : List ℤ := (List.range n).map (fun i : ℕ => a + (i : ℤ))

/-- date-fns `eachMonthOfInterval` at month granularity: every month start of
the inclusive interval.  An inverted interval (start after end) yields the
months in reverse order, as date-fns v3/v4 implement it (v2 threw a RangeError
instead; under either behavior a negative horizon does not produce a single
point, see the C3 counterexample). -/
def eachMonthOfInterval (startM endM : ℤ) : List ℤ :=
  if startM ≤ endM then monthsAsc startM (endM - startM + 1).toNat
  else (monthsAsc endM (startM - endM + 1).toNat).reverse

/-- Weekly-recurring contribution of one calendar month: for each weekly rule,
`amount * countWeekdayOccurrences(monthStart, monthEnd, weekday of the
anchor)`. -/
def weeklyTotalForMonth (weeklyRecurringTxns : List Transaction) (M : ℤ) : ℚ :=
  (weeklyRecurringTxns.map (fun t =>
    t.amount * (countWeekdayOccurrences (monthFirstDay M) (monthLastDay M)
      (getDayNum (dayNumber t.date)) : ℚ))).sum

/-- Weekly occurrences still to come in the current month: counted from
tomorrow through the end of the current month. -/
def remainingWeeklyCurrentMonth (weeklyRecurringTxns : List Transaction)
    (currentDate : CivilDate) : ℚ :=
  (weeklyRecurringTxns.map (fun t =>
    t.amount * (countWeekdayOccurrences (dayNumber currentDate + 1)
      (monthLastDay (monthIndex currentDate)) (getDayNum (dayNumber t.date)) : ℚ))).sum

/-- The `months.forEach` loop of `calculateProjection`: index 0 emits the
stored balance unchanged and not projected; every later month first applies
the growth multiplier (only when the rate is positive), then adds the month's
contributions; the first future month additionally adds the outstanding
monthly amounts and the remaining weekly occurrences of the current month. -/
noncomputable def projLoop (currentDate : CivilDate) (annualRate : ℚ)
    (monthlyGrowthMultiplier : ℝ) (monthlyRecurringTotal outstandingMonthlyThisMonth : ℚ)
    (weeklyRecurringTxns : List Transaction) :
    List ℤ → ℝ → ℕ → List ProjectionData
  | [], _, _ => []
  | M :: rest, cumulativeAmount, index =>
    if index = 0 then
      ⟨M, cumulativeAmount, false⟩ ::
        projLoop currentDate annualRate monthlyGrowthMultiplier monthlyRecurringTotal
          outstandingMonthlyThisMonth weeklyRecurringTxns rest cumulativeAmount 1
    else
      let grown : ℝ :=
        if 0 < annualRate then cumulativeAmount * monthlyGrowthMultiplier
        else cumulativeAmount
      let weeklyTotal : ℚ := weeklyTotalForMonth weeklyRecurringTxns M
      let next : ℝ :=
        if index = 1 then
          grown + (outstandingMonthlyThisMonth : ℝ) + (monthlyRecurringTotal : ℝ) +
            (remainingWeeklyCurrentMonth weeklyRecurringTxns currentDate : ℝ) +
            (weeklyTotal : ℝ)
        else grown + (monthlyRecurringTotal : ℝ) + (weeklyTotal : ℝ)
      ⟨M, next, true⟩ ::
        projLoop currentDate annualRate monthlyGrowthMultiplier monthlyRecurringTotal
          outstandingMonthlyThisMonth weeklyRecurringTxns rest next (index + 1)

/-- `calculateProjection` of projections.ts (the current version, lines
62-176): monthly and weekly rules of the pot are read off the transaction
list, the growth multiplier is `(1 + rate/100)^(1/12)` when a positive annual
rate is set, and the months from the start of the current month through
`monthsAhead` months ahead are enumerated. -/
noncomputable def calculateProjection (currentDate : CivilDate) (pot : SavingsPot)
    (transactions : List Transaction) (monthsAhead : ℤ) : SavingsProjection :=
  let currentDay := currentDate.day
  let monthlyRecurringTxns :=
    transactions.filter (fun t => t.potId == pot.id && t.repeatMonthly)
  let weeklyRecurringTxns :=
    transactions.filter (fun t => t.potId == pot.id && t.repeatWeekly)
  let monthlyRecurringTotal := (monthlyRecurringTxns.map (fun t => t.amount)).sum
  let outstandingMonthlyThisMonth :=
    ((monthlyRecurringTxns.filter (fun t => currentDay < t.date.day)).map
      (fun t => t.amount)).sum
  let annualRate : ℚ := pot.interestRate.getD 0
  let monthlyGrowthMultiplier : ℝ :=
    if 0 < annualRate then ((1 + annualRate / 100 : ℚ) : ℝ) ^ ((1 : ℝ) / 12) else 1
  let months :=
    eachMonthOfInterval (monthIndex currentDate) (monthIndex currentDate + monthsAhead)
  ⟨pot.id,
    projLoop currentDate annualRate monthlyGrowthMultiplier monthlyRecurringTotal
      outstandingMonthlyThisMonth weeklyRecurringTxns months (pot.currentTotal : ℝ) 0⟩

theorem projLoop_nil (cd : CivilDate) (ar : ℚ) (mult : ℝ) (mt os : ℚ)
    (wt : List Transaction) (cum : ℝ) (idx : ℕ) :
    projLoop cd ar mult mt os wt [] cum idx = [] := rfl

theorem projLoop_cons_zero (cd : CivilDate) (ar : ℚ) (mult : ℝ) (mt os : ℚ)
    (wt : List Transaction) (M : ℤ) (rest : List ℤ) (cum : ℝ) :
    projLoop cd ar mult mt os wt (M :: rest) cum 0 =
      ⟨M, cum, false⟩ :: projLoop cd ar mult mt os wt rest cum 1 := by
  rw [projLoop]
  simp

theorem projLoop_cons_pos (cd : CivilDate) (ar : ℚ) (mult : ℝ) (mt os : ℚ)
    (wt : List Transaction) (M : ℤ) (rest : List ℤ) (cum : ℝ) (idx : ℕ)
    (hidx : idx ≠ 0) :
    projLoop cd ar mult mt os wt (M :: rest) cum idx =
      (⟨M,
          if idx = 1 then
            (if 0 < ar then cum * mult else cum) + (os : ℝ) + (mt : ℝ) +
              (remainingWeeklyCurrentMonth wt cd : ℝ) + (weeklyTotalForMonth wt M : ℝ)
          else
            (if 0 < ar then cum * mult else cum) + (mt : ℝ) +
              (weeklyTotalForMonth wt M : ℝ), true⟩ : ProjectionData) ::
        projLoop cd ar mult mt os wt rest
          (if idx = 1 then
            (if 0 < ar then cum * mult else cum) + (os : ℝ) + (mt : ℝ) +
              (remainingWeeklyCurrentMonth wt cd : ℝ) + (weeklyTotalForMonth wt M : ℝ)
          else
            (if 0 < ar then cum * mult else cum) + (mt : ℝ) +
              (weeklyTotalForMonth wt M : ℝ)) (idx + 1) := by
  rw [projLoop]
  rw [if_neg hidx]

theorem monthsAsc_zero (a : ℤ) : monthsAsc a 0 = [] := rfl

theorem monthsAsc_succ_head (a : ℤ) (n : ℕ) :
    monthsAsc a (n + 1) = a :: monthsAsc (a + 1) n := by
  unfold monthsAsc
  rw [List.range_succ_eq_map]
  simp only [List.map_cons, Nat.cast_zero, List.map_map]
  have hmap : ((fun i : ℕ => a + (i : ℤ)) ∘ Nat.succ) = fun i : ℕ => (a + 1) + (i : ℤ) := by
    funext i
    simp only [Function.comp_apply, Nat.succ_eq_add_one, Nat.cast_add, Nat.cast_one]
    ring
  rw [hmap]
  norm_num

theorem monthsAsc_succ_last (a : ℤ) (n : ℕ) :
    monthsAsc a (n + 1) = monthsAsc a n ++ [a + (n : ℤ)] := by
  unfold monthsAsc
  rw [List.range_succ]
  simp

theorem eachMonthOfInterval_from_current (M0 N : ℤ) :
    ∃ rest, eachMonthOfInterval M0 (M0 + N) = M0 :: rest ∧ (N = 0 → rest = []) := by
  unfold eachMonthOfInterval
  by_cases h : M0 ≤ M0 + N
  · rw [if_pos h]
    have hk : (M0 + N - M0 + 1).toNat = N.toNat + 1 := by omega
    rw [hk, monthsAsc_succ_head]
    refine ⟨monthsAsc (M0 + 1) N.toNat, rfl, ?_⟩
    intro h0
    subst h0
    rfl
  · rw [if_neg h]
    have hk : (M0 - (M0 + N) + 1).toNat = (-N).toNat + 1 := by omega
    rw [hk, monthsAsc_succ_last]
    have hlast : M0 + N + ((-N).toNat : ℤ) = M0 := by omega
    rw [hlast, List.reverse_append]
    refine ⟨(monthsAsc (M0 + N) (-N).toNat).reverse, by simp, ?_⟩
    intro h0
    omega

theorem calculateProjection_data (cd : CivilDate) (pot : SavingsPot)
    (txns : List Transaction) (N : ℤ) :
    (calculateProjection cd pot txns N).data =
      projLoop cd (pot.interestRate.getD 0)
        (if 0 < pot.interestRate.getD 0 then
          ((1 + pot.interestRate.getD 0 / 100 : ℚ) : ℝ) ^ ((1 : ℝ) / 12)
        else 1)
        ((txns.filter (fun t => t.potId == pot.id && t.repeatMonthly)).map
          (fun t => t.amount)).sum
        (((txns.filter (fun t => t.potId == pot.id && t.repeatMonthly)).filter
            (fun t => cd.day < t.date.day)).map (fun t => t.amount)).sum
        (txns.filter (fun t => t.potId == pot.id && t.repeatWeekly))
        (eachMonthOfInterval (monthIndex cd) (monthIndex cd + N))
        (pot.currentTotal : ℝ) 0 := rfl

/-- Claim C3 (amended): for every pot, transaction list, evaluation date and
every integer horizon, the projection data is non-empty and its first point is
the stored balance of the current month, not projected; a horizon of exactly 0
yields just that point.  (The original claim said every horizon ≤ 0 yields a
single point; negative horizons instead enumerate earlier months, see the
counterexample.) -/
theorem C3_current_month_invariant_amended (currentDate : CivilDate) (pot : SavingsPot)
    (transactions : List Transaction) (monthsAhead : ℤ) :
    (calculateProjection currentDate pot transactions monthsAhead).data.head? =
        some ⟨monthIndex currentDate, (pot.currentTotal : ℝ), false⟩ ∧
      (monthsAhead = 0 →
        (calculateProjection currentDate pot transactions monthsAhead).data =
          [⟨monthIndex currentDate, (pot.currentTotal : ℝ), false⟩]) := by
  obtain ⟨rest, hm, h0⟩ :=
    eachMonthOfInterval_from_current (monthIndex currentDate) monthsAhead
  rw [calculateProjection_data, hm, projLoop_cons_zero]
  constructor
  · rfl
  · intro hz
    rw [h0 hz, projLoop_nil]

/-- Witness for C3 at a concrete input: horizon 0 on 2025-03-10 for a pot
holding 500. -/
theorem C3_current_month_invariant_amended_witness :
    (calculateProjection ⟨2025, 3, 10⟩ ⟨"p", 500, none⟩ [] 0).data.head? =
        some ⟨monthIndex ⟨2025, 3, 10⟩, ((500 : ℚ) : ℝ), false⟩ ∧
      (calculateProjection ⟨2025, 3, 10⟩ ⟨"p", 500, none⟩ [] 0).data =
        [⟨monthIndex ⟨2025, 3, 10⟩, ((500 : ℚ) : ℝ), false⟩] :=
  ⟨(C3_current_month_invariant_amended ⟨2025, 3, 10⟩ ⟨"p", 500, none⟩ [] 0).1,
    (C3_current_month_invariant_amended ⟨2025, 3, 10⟩ ⟨"p", 500, none⟩ [] 0).2 rfl⟩

/-- Counterexample to C3 as stated: with horizon -1 the data has two points,
not the single current-month point (date-fns enumerates the inverted interval
in reverse, so the previous month is emitted as a projected point). -/
theorem C3_negative_monthsAhead_counterexample :
    (calculateProjection ⟨2025, 3, 10⟩ ⟨"p", 500, none⟩ [] (-1)).data.length = 2 ∧
      (calculateProjection ⟨2025, 3, 10⟩ ⟨"p", 500, none⟩ [] (-1)).data.length ≠ 1 := by
  have hlen :
      (calculateProjection ⟨2025, 3, 10⟩ ⟨"p", 500, none⟩ [] (-1)).data.length = 2 := by
    rw [calculateProjection_data]
    have hm : eachMonthOfInterval (monthIndex ⟨2025, 3, 10⟩)
        (monthIndex ⟨2025, 3, 10⟩ + (-1)) =
        [monthIndex ⟨2025, 3, 10⟩, monthIndex ⟨2025, 3, 10⟩ + (-1)] := by
      unfold eachMonthOfInterval
      rw [if_neg (by omega)]
      have hk : (monthIndex ⟨2025, 3, 10⟩ - (monthIndex ⟨2025, 3, 10⟩ + (-1)) + 1).toNat
          = 2 := by omega
      rw [hk]
      rw [show (2 : ℕ) = 1 + 1 from rfl, monthsAsc_succ_last, monthsAsc_succ_last,
        monthsAsc_zero]
      simp
    rw [hm, projLoop_cons_zero, projLoop_cons_pos _ _ _ _ _ _ _ _ _ _ (by omega),
      projLoop_nil]
    rfl
  exact ⟨hlen, by rw [hlen]; omega⟩

theorem weeklyTotalForMonth_nonneg (wt : List Transaction)
    (h : ∀ t ∈ wt, 0 ≤ t.amount) (M : ℤ) : 0 ≤ weeklyTotalForMonth wt M := by
  unfold weeklyTotalForMonth
  apply List.sum_nonneg
  intro x hx
  obtain ⟨t, ht, rfl⟩ := List.mem_map.mp hx
  exact mul_nonneg (h t ht) (by positivity)

theorem remainingWeeklyCurrentMonth_nonneg (wt : List Transaction)
    (h : ∀ t ∈ wt, 0 ≤ t.amount) (cd : CivilDate) :
    0 ≤ remainingWeeklyCurrentMonth wt cd := by
  unfold remainingWeeklyCurrentMonth
  apply List.sum_nonneg
  intro x hx
  obtain ⟨t, ht, rfl⟩ := List.mem_map.mp hx
  exact mul_nonneg (h t ht) (by positivity)

theorem projLoop_chain_le (cd : CivilDate) (ar : ℚ) (mult : ℝ) (mt os : ℚ)
    (wt : List Transaction) (hmult : 0 < ar → 1 ≤ mult) (hmt : 0 ≤ mt) (hos : 0 ≤ os)
    (hwk : ∀ M : ℤ, 0 ≤ weeklyTotalForMonth wt M)
    (hrem : 0 ≤ remainingWeeklyCurrentMonth wt cd) :
    ∀ (months : List ℤ) (cum : ℝ) (idx : ℕ), 0 ≤ cum → idx ≠ 0 →
      List.Chain' (· ≤ ·)
        (cum :: (projLoop cd ar mult mt os wt months cum idx).map (fun p => p.amount)) := by
  intro months
  induction months with
  | nil =>
    intro cum idx hc hidx
    rw [projLoop_nil]
    simp
  | cons M rest ih =>
    intro cum idx hc hidx
    rw [projLoop_cons_pos cd ar mult mt os wt M rest cum idx hidx]
    have hgrown : cum ≤ (if 0 < ar then cum * mult else cum) := by
      split_ifs with har
      · calc cum = cum * 1 := by ring
          _ ≤ cum * mult := by
            apply mul_le_mul_of_nonneg_left (hmult har) hc
      · exact le_refl cum
    set grown := (if 0 < ar then cum * mult else cum) with hg
    have hnext : cum ≤ (if idx = 1 then
        grown + (os : ℝ) + (mt : ℝ) + (remainingWeeklyCurrentMonth wt cd : ℝ) +
          (weeklyTotalForMonth wt M : ℝ)
      else grown + (mt : ℝ) + (weeklyTotalForMonth wt M : ℝ)) := by
      have h1 : (0 : ℝ) ≤ (os : ℝ) := by exact_mod_cast hos
      have h2 : (0 : ℝ) ≤ (mt : ℝ) := by exact_mod_cast hmt
      have h3 : (0 : ℝ) ≤ (remainingWeeklyCurrentMonth wt cd : ℝ) := by exact_mod_cast hrem
      have h4 : (0 : ℝ) ≤ (weeklyTotalForMonth wt M : ℝ) := by exact_mod_cast hwk M
      split_ifs <;> linarith
    simp only [List.map_cons]
    rw [List.chain'_cons]
    refine ⟨hnext, ?_⟩
    exact ih _ (idx + 1) (le_trans hc hnext) (by omega)

/-- Claim C8 (amended): if every recurring rule amount of the pot is
nonnegative, the annual interest rate is nonnegative and the stored balance
is nonnegative, then the projected amounts are non-decreasing in the index.
(The original claim omitted the condition on the stored balance: a negative
balance shrinks further under a positive growth multiplier, see the
counterexample.) -/
theorem C8_monotone_amended (currentDate : CivilDate) (pot : SavingsPot)
    (transactions : List Transaction) (monthsAhead : ℤ)
    (hamounts : ∀ t ∈ transactions, t.potId = pot.id →
      t.repeatMonthly = true ∨ t.repeatWeekly = true → 0 ≤ t.amount)
    (hrate : 0 ≤ pot.interestRate.getD 0) (htotal : 0 ≤ pot.currentTotal) :
    List.Chain' (· ≤ ·)
      ((calculateProjection currentDate pot transactions monthsAhead).data.map
        (fun p => p.amount)) := by
  have hmonthly : ∀ t ∈ transactions.filter (fun t => t.potId == pot.id && t.repeatMonthly),
      0 ≤ t.amount := by
    intro t ht
    obtain ⟨htm, hcond⟩ := List.mem_filter.mp ht
    simp only [Bool.and_eq_true] at hcond
    exact hamounts t htm (eq_of_beq hcond.1) (Or.inl hcond.2)
  have hweekly : ∀ t ∈ transactions.filter (fun t => t.potId == pot.id && t.repeatWeekly),
      0 ≤ t.amount := by
    intro t ht
    obtain ⟨htm, hcond⟩ := List.mem_filter.mp ht
    simp only [Bool.and_eq_true] at hcond
    exact hamounts t htm (eq_of_beq hcond.1) (Or.inr hcond.2)
  have hmt : 0 ≤ ((transactions.filter (fun t => t.potId == pot.id && t.repeatMonthly)).map
      (fun t => t.amount)).sum := by
    apply List.sum_nonneg
    intro x hx
    obtain ⟨t, ht, rfl⟩ := List.mem_map.mp hx
    exact hmonthly t ht
  have hos : 0 ≤ (((transactions.filter (fun t => t.potId == pot.id && t.repeatMonthly)).filter
      (fun t => currentDate.day < t.date.day)).map (fun t => t.amount)).sum := by
    apply List.sum_nonneg
    intro x hx
    obtain ⟨t, ht, rfl⟩ := List.mem_map.mp hx
    exact hmonthly t (List.mem_of_mem_filter ht)
  have hmult : 0 < pot.interestRate.getD 0 →
      (1 : ℝ) ≤ (if 0 < pot.interestRate.getD 0 then
        ((1 + pot.interestRate.getD 0 / 100 : ℚ) : ℝ) ^ ((1 : ℝ) / 12) else 1) := by
    intro har
    rw [if_pos har]
    have hx : (0 : ℝ) ≤ ((pot.interestRate.getD 0 : ℚ) : ℝ) := by exact_mod_cast hrate
    have hb : (1 : ℝ) ≤ ((1 + pot.interestRate.getD 0 / 100 : ℚ) : ℝ) := by
      push_cast
      push_cast at hx
      linarith
    calc (1 : ℝ) = ((1 + pot.interestRate.getD 0 / 100 : ℚ) : ℝ) ^ (0 : ℝ) := by
          rw [Real.rpow_zero]
      _ ≤ ((1 + pot.interestRate.getD 0 / 100 : ℚ) : ℝ) ^ ((1 : ℝ) / 12) :=
          Real.rpow_le_rpow_of_exponent_le hb (by norm_num)
  obtain ⟨rest, hmths, _⟩ :=
    eachMonthOfInterval_from_current (monthIndex currentDate) monthsAhead
  rw [calculateProjection_data, hmths, projLoop_cons_zero]
  simp only [List.map_cons]
  exact projLoop_chain_le currentDate (pot.interestRate.getD 0) _ _ _ _
    hmult hmt hos
    (weeklyTotalForMonth_nonneg _ hweekly)
    (remainingWeeklyCurrentMonth_nonneg _ hweekly currentDate)
    rest (pot.currentTotal : ℝ) 1 (by exact_mod_cast htotal) (by omega)

/-- Witness for C8 at a concrete input: no rules and a zero rate on a pot
holding 500. -/
theorem C8_monotone_amended_witness :
    (∀ t ∈ ([] : List Transaction), t.potId = "p" →
        t.repeatMonthly = true ∨ t.repeatWeekly = true → 0 ≤ t.amount) ∧
      (0 : ℚ) ≤ (some (0 : ℚ)).getD 0 ∧ (0 : ℚ) ≤ 500 ∧
      List.Chain' (· ≤ ·)
        ((calculateProjection ⟨2025, 3, 20⟩ ⟨"p", 500, some 0⟩ [] 2).data.map
          (fun p => p.amount)) :=
  ⟨fun t ht => absurd ht (List.not_mem_nil t), by decide, by decide,
    C8_monotone_amended ⟨2025, 3, 20⟩ ⟨"p", 500, some 0⟩ [] 2
      (fun t ht => absurd ht (List.not_mem_nil t)) (by decide) (by decide)⟩

theorem growth_multiplier_4096 :
    ((1 + (409500 : ℚ) / 100 : ℚ) : ℝ) ^ ((1 : ℝ) / 12) = 2 := by
  have hb : ((1 + (409500 : ℚ) / 100 : ℚ) : ℝ) = 4096 := by norm_num
  rw [hb]
  have h2 : (4096 : ℝ) = (2 : ℝ) ^ ((12 : ℕ) : ℝ) := by
    rw [Real.rpow_natCast]
    norm_num
  rw [h2, ← Real.rpow_mul (by norm_num : (0 : ℝ) ≤ 2)]
  norm_num

theorem C8_counterexample_amounts :
    ((calculateProjection ⟨2025, 3, 10⟩ ⟨"p", -100, some 409500⟩ [] 1).data.map
      (fun p => p.amount)) = [(-100 : ℝ), (-200 : ℝ)] := by
  have hm : eachMonthOfInterval (monthIndex ⟨2025, 3, 10⟩)
      (monthIndex ⟨2025, 3, 10⟩ + 1) =
      [monthIndex ⟨2025, 3, 10⟩, monthIndex ⟨2025, 3, 10⟩ + 1] := by
    unfold eachMonthOfInterval
    rw [if_pos (by omega)]
    have hk : (monthIndex ⟨2025, 3, 10⟩ + 1 - monthIndex ⟨2025, 3, 10⟩ + 1).toNat = 2 := by
      omega
    rw [hk, show (2 : ℕ) = 1 + 1 from rfl, monthsAsc_succ_head, monthsAsc_succ_head,
      monthsAsc_zero]
  rw [calculateProjection_data, hm, projLoop_cons_zero,
    projLoop_cons_pos _ _ _ _ _ _ _ _ _ _ (by omega), projLoop_nil]
  simp only [List.map_cons, List.map_nil, List.filter_nil, List.sum_nil]
  have hrate : ((⟨"p", -100, some 409500⟩ : SavingsPot).interestRate.getD 0) =
      (409500 : ℚ) := rfl
  rw [hrate]
  simp only [List.cons.injEq, and_true]
  constructor
  · norm_num
  · rw [if_pos trivial, if_pos (by norm_num : (0 : ℚ) < 409500), growth_multiplier_4096]
    unfold weeklyTotalForMonth remainingWeeklyCurrentMonth
    simp only [List.map_nil, List.sum_nil]
    push_cast
    norm_num

/-- Counterexample to C8 as stated: all (zero) rule amounts are nonnegative
and the interest rate is nonnegative, yet the projected amounts strictly
decrease, because the stored balance is negative and the positive growth
multiplier scales it further down. -/
theorem C8_negative_balance_counterexample :
    (∀ t ∈ ([] : List Transaction), t.potId = "p" →
        t.repeatMonthly = true ∨ t.repeatWeekly = true → 0 ≤ t.amount) ∧
      (0 : ℚ) ≤ (⟨"p", -100, some 409500⟩ : SavingsPot).interestRate.getD 0 ∧
      ¬ List.Chain' (· ≤ ·)
        ((calculateProjection ⟨2025, 3, 10⟩ ⟨"p", -100, some 409500⟩ [] 1).data.map
          (fun p => p.amount)) := by
  refine ⟨fun t ht => absurd ht (List.not_mem_nil t), by norm_num, ?_⟩
  rw [C8_counterexample_amounts]
  intro hchain
  rw [List.chain'_cons] at hchain
  have := hchain.1
  norm_num at this

theorem eachMonthOfInterval_two_ahead (M0 : ℤ) :
    eachMonthOfInterval M0 (M0 + 2) = [M0, M0 + 1, M0 + 2] := by
  unfold eachMonthOfInterval
  rw [if_pos (by omega)]
  have hk : (M0 + 2 - M0 + 1).toNat = 3 := by omega
  rw [hk, show (3 : ℕ) = 2 + 1 from rfl, monthsAsc_succ_head,
    show (2 : ℕ) = 1 + 1 from rfl, monthsAsc_succ_head,
    show (1 : ℕ) = 0 + 1 from rfl, monthsAsc_succ_head, monthsAsc_zero]
  simp only [List.cons.injEq, and_true, true_and]
  omega

/-- Claim C4: a pot holding 500 with a zero interest rate and one monthly rule
of 100 anchored on the 15th, projected 2 months ahead: evaluated on the 20th
the amounts are 500 (not projected), 600, 700; evaluated on the 10th the first
future month already reaches 700, because the still-outstanding monthly amount
of the current month is added on top of that month's own contribution. -/
theorem C4_scenario_monthly_rule :
    ((calculateProjection ⟨2025, 3, 20⟩ ⟨"p", 500, some 0⟩
        [⟨"r", "u", "p", 100, ⟨2025, 3, 15⟩, none, true, false⟩] 2).data.map
        (fun p => (p.amount, p.projected))) =
      [((500 : ℝ), false), ((600 : ℝ), true), ((700 : ℝ), true)] ∧
      ((calculateProjection ⟨2025, 3, 10⟩ ⟨"p", 500, some 0⟩
        [⟨"r", "u", "p", 100, ⟨2025, 3, 15⟩, none, true, false⟩] 2).data.map
        (fun p => p.amount)).get? 1 = some (700 : ℝ) := by
  constructor
  · rw [calculateProjection_data, eachMonthOfInterval_two_ahead, projLoop_cons_zero,
      projLoop_cons_pos _ _ _ _ _ _ _ _ _ _ (by omega),
      projLoop_cons_pos _ _ _ _ _ _ _ _ _ _ (by omega), projLoop_nil]
    simp only [List.map_cons, List.map_nil]
    simp
    norm_num [weeklyTotalForMonth, remainingWeeklyCurrentMonth]
  · rw [calculateProjection_data, eachMonthOfInterval_two_ahead, projLoop_cons_zero,
      projLoop_cons_pos _ _ _ _ _ _ _ _ _ _ (by omega),
      projLoop_cons_pos _ _ _ _ _ _ _ _ _ _ (by omega), projLoop_nil]
    simp only [List.map_cons, List.map_nil]
    simp
    norm_num [weeklyTotalForMonth, remainingWeeklyCurrentMonth]

/-- A row of the savings_pots table as the scheduler joins and updates it
(target, color and timestamps are never read by the engine and are omitted). -/
structure SavingsPotRow where
  id : String
  userId : String
  name : String
  currentTotal : ℚ
deriving DecidableEq

/-- A row of processed_recurring: the marker guaranteeing at-most-once
materialization, keyed by (original transaction id, instance date). -/
structure ProcessedMarker where
  originalTransactionId : String
  instanceDate : CivilDate
  newTransactionId : String
deriving DecidableEq

/-- The database state the scheduler and the transaction routes read and
write.  `nextId` models the uuid source: fresh ids are distinct from each
other; the engine never parses them. -/
structure DbState where
  transactions : List Transaction
  pots : List SavingsPotRow
  users : List String
  markers : List ProcessedMarker
  nextId : ℕ
deriving DecidableEq

/-- Membership in the scheduler's SELECT: a repeat flag is set and the inner
joins against savings_pots and users succeed. -/
def isRecurringRule (st : DbState) (t : Transaction) : Prop :=
  (t.repeatMonthly = true ∨ t.repeatWeekly = true) ∧
    t.potId ∈ st.pots.map (fun p => p.id) ∧ t.userId ∈ st.users

instance (st : DbState) (t : Transaction) : Decidable (isRecurringRule st t) := by
  unfold isRecurringRule
  infer_instance

/-- The rows the scheduler's SELECT returns, in table order. -/
def recurringRules (st : DbState) : List Transaction :=
  st.transactions.filter (fun t => decide (isRecurringRule st t))

/-- `hasBeenProcessed` of scheduler.js: a processed_recurring row keyed
(original transaction id, instance date) exists. -/
def hasBeenProcessed (markers : List ProcessedMarker) (originalTransactionId : String)
    (instanceDate : CivilDate) : Prop :=
  ∃ m ∈ markers, m.originalTransactionId = originalTransactionId ∧
    m.instanceDate = instanceDate

instance (markers : List ProcessedMarker) (oid : String) (d : CivilDate) :
    Decidable (hasBeenProcessed markers oid d) := by
  unfold hasBeenProcessed
  infer_instance

/-- The `shouldProcess` decision of `processRecurringTransactions`: the weekly
weekday comparison runs first, then the monthly day-of-month comparison
overwrites the flag (two sequential `if` statements, not `else if`). -/
def shouldProcessRule (today : CivilDate) (t : Transaction) : Bool :=
  let afterWeekly := if t.repeatWeekly then decide (dayOfWeek today = dayOfWeek t.date)
    else false
  let afterMonthly := if t.repeatMonthly then decide (today.day = t.date.day)
    else afterWeekly
  afterMonthly

/-- One iteration of the scheduler's rule loop: skip when not due today, skip
when already processed for today, otherwise insert the materialized ledger
transaction (repeat flags cleared, date today, description annotated), add the
amount to the owning pot's running total, and write the processed marker.  The
Bool reports whether the rule was materialized. -/
def processRule (today : CivilDate) (st : DbState) (t : Transaction) : DbState × Bool :=
  if shouldProcessRule today t = false then (st, false)
  else if hasBeenProcessed st.markers t.id today then (st, false)
  else
    let newTransactionId := "auto-" ++ toString st.nextId
    let newTxn : Transaction :=
      ⟨newTransactionId, t.userId, t.potId, t.amount, today,
        some (match t.description with
          | some dsc => dsc ++ " (auto)"
          | none => "Auto-processed recurring payment"), false, false⟩
    ({ transactions := st.transactions ++ [newTxn],
       pots := st.pots.map (fun p =>
         if p.id = t.potId then { p with currentTotal := p.currentTotal + t.amount } else p),
       users := st.users,
       markers := st.markers ++ [⟨t.id, today, newTransactionId⟩],
       nextId := st.nextId + 1 }, true)

/-- Folding one rule into the accumulated (state, processed count). -/
def processStep (today : CivilDate) (acc : DbState × ℕ) (t : Transaction) :
    DbState × ℕ :=
  ((processRule today acc.1 t).1, acc.2 + (if (processRule today acc.1 t).2 then 1 else 0))

/-- `processRecurringTransactions` of scheduler.js: read the recurring rules
once, then process each in order; returns the new state and how many rules
were materialized. -/
def processRecurringTransactions (today : CivilDate) (st : DbState) : DbState × ℕ :=
  (recurringRules st).foldl (processStep today) (st, 0)

theorem processRule_not_due (today : CivilDate) (st : DbState) (t : Transaction)
    (h : shouldProcessRule today t = false) : processRule today st t = (st, false) := by
  unfold processRule
  rw [if_pos h]

theorem processRule_marked (today : CivilDate) (st : DbState) (t : Transaction)
    (h1 : shouldProcessRule today t = true)
    (h2 : hasBeenProcessed st.markers t.id today) :
    processRule today st t = (st, false) := by
  unfold processRule
  rw [if_neg (by rw [h1]; exact fun hc => Bool.noConfusion hc), if_pos h2]

theorem processRule_insert (today : CivilDate) (st : DbState) (t : Transaction)
    (h1 : shouldProcessRule today t = true)
    (h2 : ¬ hasBeenProcessed st.markers t.id today) :
    processRule today st t =
      ({ transactions := st.transactions ++
          [⟨"auto-" ++ toString st.nextId, t.userId, t.potId, t.amount, today,
            some (match t.description with
              | some dsc => dsc ++ " (auto)"
              | none => "Auto-processed recurring payment"), false, false⟩],
         pots := st.pots.map (fun p =>
           if p.id = t.potId then { p with currentTotal := p.currentTotal + t.amount }
           else p),
         users := st.users,
         markers := st.markers ++ [⟨t.id, today, "auto-" ++ toString st.nextId⟩],
         nextId := st.nextId + 1 }, true) := by
  unfold processRule
  rw [if_neg (by rw [h1]; exact fun hc => Bool.noConfusion hc), if_neg h2]

theorem pots_update_map_id (pots : List SavingsPotRow) (pid : String) (amt : ℚ) :
    (pots.map (fun p =>
      if p.id = pid then { p with currentTotal := p.currentTotal + amt } else p)).map
        (fun p => p.id) = pots.map (fun p => p.id) := by
  rw [List.map_map]
  apply List.map_congr_left
  intro p _
  by_cases h : p.id = pid <;> simp [h]


theorem processRule_insert_fields (today : CivilDate) (st : DbState) (t : Transaction)
    (h1 : shouldProcessRule today t = true)
    (h2 : ¬ hasBeenProcessed st.markers t.id today) :
    (processRule today st t).2 = true ∧
      (processRule today st t).1.transactions = st.transactions ++
        [⟨"auto-" ++ toString st.nextId, t.userId, t.potId, t.amount, today,
          some (match t.description with
            | some dsc => dsc ++ " (auto)"
            | none => "Auto-processed recurring payment"), false, false⟩] ∧
      (processRule today st t).1.markers = st.markers ++
        [⟨t.id, today, "auto-" ++ toString st.nextId⟩] ∧
      (processRule today st t).1.users = st.users ∧
      (processRule today st t).1.pots = st.pots.map (fun p =>
        if p.id = t.potId then { p with currentTotal := p.currentTotal + t.amount }
        else p) := by
  rw [processRule_insert today st t h1 h2]
  exact ⟨rfl, rfl, rfl, rfl, rfl⟩

theorem foldProcess_spec (today : CivilDate) :
    ∀ (l : List Transaction) (st : DbState) (n : ℕ),
      (∀ t ∈ l, ¬ hasBeenProcessed st.markers t.id today) →
      (l.map (fun t => t.id)).Nodup →
      (l.foldl (processStep today) (st, n)).2 =
          n + (l.filter (shouldProcessRule today)).length ∧
        (l.foldl (processStep today) (st, n)).1.users = st.users ∧
        (l.foldl (processStep today) (st, n)).1.pots.map (fun p => p.id) =
          st.pots.map (fun p => p.id) ∧
        (l.foldl (processStep today) (st, n)).1.transactions.length =
          st.transactions.length + (l.filter (shouldProcessRule today)).length ∧
        (l.foldl (processStep today) (st, n)).1.markers.length =
          st.markers.length + (l.filter (shouldProcessRule today)).length ∧
        (∃ ladd, (l.foldl (processStep today) (st, n)).1.transactions =
            st.transactions ++ ladd ∧
          ∀ x ∈ ladd, x.repeatMonthly = false ∧ x.repeatWeekly = false) ∧
        (∃ madd, (l.foldl (processStep today) (st, n)).1.markers = st.markers ++ madd) ∧
        (∀ t ∈ l, shouldProcessRule today t = true →
          hasBeenProcessed (l.foldl (processStep today) (st, n)).1.markers t.id today) := by
  intro l
  induction l with
  | nil =>
    intro st n _ _
    refine ⟨by simp, rfl, rfl, by simp, by simp, ⟨[], by simp, by simp⟩, ⟨[], by simp⟩,
      by simp⟩
  | cons t l ih =>
    intro st n hfresh hnodup
    rw [List.map_cons, List.nodup_cons] at hnodup
    rw [List.foldl_cons]
    by_cases hdue : shouldProcessRule today t = true
    · have hnm : ¬ hasBeenProcessed st.markers t.id today :=
        hfresh t (List.mem_cons_self t l)
      obtain ⟨hr2, hrtx, hrmk, hrus, hrpots⟩ :=
        processRule_insert_fields today st t hdue hnm
      have hstep : processStep today (st, n) t = ((processRule today st t).1, n + 1) := by
        unfold processStep
        rw [hr2]
        simp
      rw [hstep]
      have hfresh' : ∀ t' ∈ l,
          ¬ hasBeenProcessed (processRule today st t).1.markers t'.id today := by
        intro t' ht' hcontra
        rw [hrmk] at hcontra
        obtain ⟨m, hmem, hoid, hdate⟩ := hcontra
        rcases List.mem_append.mp hmem with hold | hnew
        · exact hfresh t' (List.mem_cons_of_mem t ht') ⟨m, hold, hoid, hdate⟩
        · have hm := List.mem_singleton.mp hnew
          subst hm
          have hmem2 : t'.id ∈ List.map (fun x => x.id) l :=
            List.mem_map_of_mem (fun x => x.id) ht'
          rw [← hoid] at hmem2
          exact hnodup.1 hmem2
      have ihr := ih (processRule today st t).1 (n + 1) hfresh' hnodup.2
      rw [List.filter_cons_of_pos hdue]
      obtain ⟨hc1, hc2, hc3, hc4, hc5, ⟨ladd, hladd, hlflags⟩, ⟨madd, hmadd⟩, hc8⟩ := ihr
      refine ⟨?_, ?_, ?_, ?_, ?_, ?_, ?_, ?_⟩
      · rw [hc1]
        simp only [List.length_cons]
        omega
      · rw [hc2, hrus]
      · rw [hc3, hrpots, pots_update_map_id]
      · rw [hc4, hrtx]
        simp only [List.length_append, List.length_cons, List.length_nil]
        omega
      · rw [hc5, hrmk]
        simp only [List.length_append, List.length_cons, List.length_nil]
        omega
      · refine ⟨⟨"auto-" ++ toString st.nextId, t.userId, t.potId, t.amount, today,
          some (match t.description with
            | some dsc => dsc ++ " (auto)"
            | none => "Auto-processed recurring payment"), false, false⟩ :: ladd, ?_, ?_⟩
        · rw [hladd, hrtx]
          simp
        · intro x hx
          rcases List.mem_cons.mp hx with hx0 | hx1
          · subst hx0
            exact ⟨rfl, rfl⟩
          · exact hlflags x hx1
      · refine ⟨⟨t.id, today, "auto-" ++ toString st.nextId⟩ :: madd, ?_⟩
        rw [hmadd, hrmk]
        simp
      · intro t'' ht'' hdue''
        rcases List.mem_cons.mp ht'' with h0 | h1
        · subst h0
          rw [hmadd, hrmk]
          exact ⟨⟨t''.id, today, "auto-" ++ toString st.nextId⟩, by simp, rfl, rfl⟩
        · exact hc8 t'' h1 hdue''
    · have hf : shouldProcessRule today t = false := by
        revert hdue
        cases shouldProcessRule today t <;> simp
      have hstep : processStep today (st, n) t = (st, n) := by
        unfold processStep
        rw [processRule_not_due _ _ _ hf]
        simp
      rw [hstep]
      have ihr := ih st n (fun t' ht' => hfresh t' (List.mem_cons_of_mem t ht')) hnodup.2
      rw [List.filter_cons_of_neg (by simp [hf])]
      obtain ⟨hc1, hc2, hc3, hc4, hc5, hc6, hc7, hc8⟩ := ihr
      refine ⟨hc1, hc2, hc3, hc4, hc5, hc6, hc7, ?_⟩
      intro t'' ht'' hdue''
      rcases List.mem_cons.mp ht'' with h0 | h1
      · subst h0
        rw [hf] at hdue''
        exact Bool.noConfusion hdue''
      · exact hc8 t'' h1 hdue''

theorem recurringRules_stable (st st' : DbState)
    (hpots : st'.pots.map (fun p => p.id) = st.pots.map (fun p => p.id))
    (husers : st'.users = st.users)
    (htx : ∃ ladd, st'.transactions = st.transactions ++ ladd ∧
      ∀ x ∈ ladd, x.repeatMonthly = false ∧ x.repeatWeekly = false) :
    recurringRules st' = recurringRules st := by
  obtain ⟨ladd, hadd, hflags⟩ := htx
  unfold recurringRules
  rw [hadd, List.filter_append]
  have h1 : ladd.filter (fun t => decide (isRecurringRule st' t)) = [] := by
    rw [List.filter_eq_nil_iff]
    intro x hx
    simp only [decide_eq_true_eq]
    intro hr
    rcases hr.1 with hflag | hflag
    · rw [(hflags x hx).1] at hflag
      exact Bool.noConfusion hflag
    · rw [(hflags x hx).2] at hflag
      exact Bool.noConfusion hflag
  rw [h1, List.append_nil]
  apply List.filter_congr
  intro t _
  have : isRecurringRule st' t ↔ isRecurringRule st t := by
    unfold isRecurringRule
    rw [hpots, husers]
  exact decide_eq_decide.mpr this

theorem foldProcess_skip (today : CivilDate) :
    ∀ (l : List Transaction) (st : DbState) (n : ℕ),
      (∀ t ∈ l, shouldProcessRule today t = true →
        hasBeenProcessed st.markers t.id today) →
      l.foldl (processStep today) (st, n) = (st, n) := by
  intro l
  induction l with
  | nil => intro st n _; rfl
  | cons t l ih =>
    intro st n hmk
    rw [List.foldl_cons]
    have hstep : processStep today (st, n) t = (st, n) := by
      unfold processStep
      by_cases hdue : shouldProcessRule today t = true
      · rw [processRule_marked _ _ _ hdue (hmk t (List.mem_cons_self t l) hdue)]
        simp
      · have hf : shouldProcessRule today t = false := by
          revert hdue
          cases shouldProcessRule today t <;> simp
        rw [processRule_not_due _ _ _ hf]
        simp
    rw [hstep]
    exact ih st n (fun t' ht' => hmk t' (List.mem_cons_of_mem t ht'))

/-- Claim C1: starting from a state whose rule ids are distinct and that has
no processed marker for today, one materialization cycle materializes exactly
the due rules: one new ledger transaction and one new marker per due rule, a
marker keyed (rule id, today) for every due rule afterwards; running the cycle
again for the same today processes zero rules and leaves the ledger, the pot
balances and the marker store unchanged. -/
theorem C1_materialization_idempotent (today : CivilDate) (st : DbState)
    (hids : ((recurringRules st).map (fun t => t.id)).Nodup)
    (hfresh : ∀ t ∈ recurringRules st, ¬ hasBeenProcessed st.markers t.id today) :
    (processRecurringTransactions today st).2 =
        ((recurringRules st).filter (shouldProcessRule today)).length ∧
      (processRecurringTransactions today st).1.transactions.length =
        st.transactions.length + (processRecurringTransactions today st).2 ∧
      (processRecurringTransactions today st).1.markers.length =
        st.markers.length + (processRecurringTransactions today st).2 ∧
      (∀ t ∈ recurringRules st, shouldProcessRule today t = true →
        hasBeenProcessed (processRecurringTransactions today st).1.markers t.id today) ∧
      processRecurringTransactions today (processRecurringTransactions today st).1 =
        ((processRecurringTransactions today st).1, 0) := by
  obtain ⟨hc1, hc2, hc3, hc4, hc5, hc6, hc7, hc8⟩ :=
    foldProcess_spec today (recurringRules st) st 0 hfresh hids
  have hrun1 : processRecurringTransactions today st =
      (recurringRules st).foldl (processStep today) (st, 0) := rfl
  refine ⟨?_, ?_, ?_, ?_, ?_⟩
  · rw [hrun1, hc1]
    omega
  · rw [hrun1, hc1, hc4]
    omega
  · rw [hrun1, hc1, hc5]
    omega
  · intro t ht hdue
    rw [hrun1]
    exact hc8 t ht hdue
  · have hrules : recurringRules (processRecurringTransactions today st).1 =
        recurringRules st := by
      apply recurringRules_stable
      · rw [hrun1]
        exact hc3
      · rw [hrun1]
        exact hc2
      · rw [hrun1]
        exact hc6
    have hrules' : recurringRules
        ((recurringRules st).foldl (processStep today) (st, 0)).1 = recurringRules st := by
      rw [← hrun1]
      exact hrules
    have hrun2 : processRecurringTransactions today (processRecurringTransactions today st).1 =
        (recurringRules st).foldl (processStep today)
          ((processRecurringTransactions today st).1, 0) := by
      unfold processRecurringTransactions
      rw [hrules']
    rw [hrun2]
    apply foldProcess_skip
    intro t ht hdue
    rw [hrun1]
    exact hc8 t ht hdue

/-- Witness for C1: one monthly rule anchored on the 15th, its pot and user
present, no markers; the cycle runs on 2025-04-15. -/
theorem C1_materialization_idempotent_witness :
    ((recurringRules ⟨[⟨"r1", "u", "p", 100, ⟨2025, 3, 15⟩, none, true, false⟩],
          [⟨"p", "u", "Pot", 0⟩], ["u"], [], 0⟩).map (fun t => t.id)).Nodup ∧
      (∀ t ∈ recurringRules ⟨[⟨"r1", "u", "p", 100, ⟨2025, 3, 15⟩, none, true, false⟩],
          [⟨"p", "u", "Pot", 0⟩], ["u"], [], 0⟩,
        ¬ hasBeenProcessed (DbState.markers ⟨[⟨"r1", "u", "p", 100, ⟨2025, 3, 15⟩, none,
          true, false⟩], [⟨"p", "u", "Pot", 0⟩], ["u"], [], 0⟩) t.id ⟨2025, 4, 15⟩) ∧
      ((processRecurringTransactions ⟨2025, 4, 15⟩
          ⟨[⟨"r1", "u", "p", 100, ⟨2025, 3, 15⟩, none, true, false⟩],
            [⟨"p", "u", "Pot", 0⟩], ["u"], [], 0⟩).2 =
        ((recurringRules ⟨[⟨"r1", "u", "p", 100, ⟨2025, 3, 15⟩, none, true, false⟩],
          [⟨"p", "u", "Pot", 0⟩], ["u"], [], 0⟩).filter
            (shouldProcessRule ⟨2025, 4, 15⟩)).length ∧
      (processRecurringTransactions ⟨2025, 4, 15⟩
          ⟨[⟨"r1", "u", "p", 100, ⟨2025, 3, 15⟩, none, true, false⟩],
            [⟨"p", "u", "Pot", 0⟩], ["u"], [], 0⟩).1.transactions.length =
        (DbState.transactions ⟨[⟨"r1", "u", "p", 100, ⟨2025, 3, 15⟩, none, true, false⟩],
          [⟨"p", "u", "Pot", 0⟩], ["u"], [], 0⟩).length +
          (processRecurringTransactions ⟨2025, 4, 15⟩
            ⟨[⟨"r1", "u", "p", 100, ⟨2025, 3, 15⟩, none, true, false⟩],
              [⟨"p", "u", "Pot", 0⟩], ["u"], [], 0⟩).2 ∧
      (processRecurringTransactions ⟨2025, 4, 15⟩
          ⟨[⟨"r1", "u", "p", 100, ⟨2025, 3, 15⟩, none, true, false⟩],
            [⟨"p", "u", "Pot", 0⟩], ["u"], [], 0⟩).1.markers.length =
        (DbState.markers ⟨[⟨"r1", "u", "p", 100, ⟨2025, 3, 15⟩, none, true, false⟩],
          [⟨"p", "u", "Pot", 0⟩], ["u"], [], 0⟩).length +
          (processRecurringTransactions ⟨2025, 4, 15⟩
            ⟨[⟨"r1", "u", "p", 100, ⟨2025, 3, 15⟩, none, true, false⟩],
              [⟨"p", "u", "Pot", 0⟩], ["u"], [], 0⟩).2 ∧
      (∀ t ∈ recurringRules ⟨[⟨"r1", "u", "p", 100, ⟨2025, 3, 15⟩, none, true, false⟩],
          [⟨"p", "u", "Pot", 0⟩], ["u"], [], 0⟩,
        shouldProcessRule ⟨2025, 4, 15⟩ t = true →
          hasBeenProcessed (processRecurringTransactions ⟨2025, 4, 15⟩
            ⟨[⟨"r1", "u", "p", 100, ⟨2025, 3, 15⟩, none, true, false⟩],
              [⟨"p", "u", "Pot", 0⟩], ["u"], [], 0⟩).1.markers t.id ⟨2025, 4, 15⟩) ∧
      processRecurringTransactions ⟨2025, 4, 15⟩
          (processRecurringTransactions ⟨2025, 4, 15⟩
            ⟨[⟨"r1", "u", "p", 100, ⟨2025, 3, 15⟩, none, true, false⟩],
              [⟨"p", "u", "Pot", 0⟩], ["u"], [], 0⟩).1 =
        ((processRecurringTransactions ⟨2025, 4, 15⟩
          ⟨[⟨"r1", "u", "p", 100, ⟨2025, 3, 15⟩, none, true, false⟩],
            [⟨"p", "u", "Pot", 0⟩], ["u"], [], 0⟩).1, 0)) :=
  ⟨by decide, by decide,
    C1_materialization_idempotent ⟨2025, 4, 15⟩
      ⟨[⟨"r1", "u", "p", 100, ⟨2025, 3, 15⟩, none, true, false⟩],
        [⟨"p", "u", "Pot", 0⟩], ["u"], [], 0⟩ (by decide) (by decide)⟩

/-- Claim C9: for a rule with both the weekly and the monthly flag set, the
due decision is the monthly comparison alone — the weekly weekday match is
overwritten by the monthly day-of-month check, so the rule is materialized on
a day exactly when the day of month equals the anchor's day of month, and a
weekday match on any other day is ignored. -/
theorem C9_monthly_overrides_weekly (today : CivilDate) (t : Transaction)
    (hw : t.repeatWeekly = true) (hm : t.repeatMonthly = true) :
    shouldProcessRule today t = decide (today.day = t.date.day) ∧
      (dayOfWeek today = dayOfWeek t.date → today.day ≠ t.date.day →
        shouldProcessRule today t = false) := by
  have h1 : shouldProcessRule today t = decide (today.day = t.date.day) := by
    unfold shouldProcessRule
    rw [hw, hm]
    simp
  refine ⟨h1, ?_⟩
  intro _ hne
  rw [h1]
  simpa using hne

/-- Witness for C9: a rule flagged both weekly and monthly, anchored Saturday
2025-03-15, evaluated on Saturday 2025-04-12 (same weekday, different day of
month): not processed. -/
theorem C9_monthly_overrides_weekly_witness :
    (⟨"r1", "u", "p", 100, ⟨2025, 3, 15⟩, none, true, true⟩ : Transaction).repeatWeekly
        = true ∧
      (⟨"r1", "u", "p", 100, ⟨2025, 3, 15⟩, none, true, true⟩ :
        Transaction).repeatMonthly = true ∧
      dayOfWeek ⟨2025, 4, 12⟩ =
        dayOfWeek (⟨"r1", "u", "p", 100, ⟨2025, 3, 15⟩, none, true, true⟩ :
          Transaction).date ∧
      shouldProcessRule ⟨2025, 4, 12⟩
        ⟨"r1", "u", "p", 100, ⟨2025, 3, 15⟩, none, true, true⟩ = false ∧
      (shouldProcessRule ⟨2025, 4, 12⟩
          ⟨"r1", "u", "p", 100, ⟨2025, 3, 15⟩, none, true, true⟩ =
        decide ((⟨2025, 4, 12⟩ : CivilDate).day =
          (⟨"r1", "u", "p", 100, ⟨2025, 3, 15⟩, none, true, true⟩ :
            Transaction).date.day)) :=
  ⟨rfl, rfl, by decide, by decide,
    (C9_monthly_overrides_weekly ⟨2025, 4, 12⟩
      ⟨"r1", "u", "p", 100, ⟨2025, 3, 15⟩, none, true, true⟩ rfl rfl).1⟩

/-- POST /transactions of the savings-tracker server routes: verify the pot
exists and belongs to the user, insert the transaction, and add the amount to
the pot's running total. -/
def createTransaction (userId potId : String) (amount : ℚ) (date : CivilDate)
    (description : Option String) (repeatMonthly repeatWeekly : Bool)
    (st : DbState) : DbState :=
  if (st.pots.find? (fun p => decide (p.id = potId ∧ p.userId = userId))).isSome then
    { st with
      transactions := st.transactions ++
        [⟨"txn-" ++ toString st.nextId, userId, potId, amount, date, description,
          repeatMonthly, repeatWeekly⟩],
      pots := st.pots.map (fun p =>
        if p.id = potId then { p with currentTotal := p.currentTotal + amount } else p),
      nextId := st.nextId + 1 }
  else st

/-- PUT /transactions/:id of the server routes: look up the transaction by id
and user, overwrite its fields (absent request fields keep the stored values),
and apply the amount difference — when it is nonzero — to the pot the
transaction belonged to BEFORE the edit.  The route never transfers balance
between pots when potId changes (its own comment reads "If pot changed, we
need to handle that too (more complex logic needed)"). -/
def updateTransaction (userId id : String) (potId : Option String)
    (amount : Option ℚ) (date : Option CivilDate)
    (description : Option (Option String)) (repeatMonthly repeatWeekly : Option Bool)
    (st : DbState) : DbState :=
  match st.transactions.find? (fun t => decide (t.id = id ∧ t.userId = userId)) with
  | none => st
  | some existingTransaction =>
    let newAmount := amount.getD existingTransaction.amount
    let amountDiff := newAmount - existingTransaction.amount
    { st with
      transactions := st.transactions.map (fun t =>
        if t.id = id then
          { t with
            potId := potId.getD existingTransaction.potId,
            amount := newAmount,
            date := date.getD existingTransaction.date,
            description := description.getD existingTransaction.description,
            repeatMonthly := repeatMonthly.getD existingTransaction.repeatMonthly,
            repeatWeekly := repeatWeekly.getD existingTransaction.repeatWeekly }
        else t),
      pots := if amountDiff ≠ 0 then
          st.pots.map (fun p =>
            if p.id = existingTransaction.potId then
              { p with currentTotal := p.currentTotal + amountDiff }
            else p)
        else st.pots }

/-- DELETE /transactions/:id of the server routes: look up the transaction by
id and user, subtract its amount from its pot's running total, and delete the
row. -/
def deleteTransaction (userId id : String) (st : DbState) : DbState :=
  match st.transactions.find? (fun t => decide (t.id = id ∧ t.userId = userId)) with
  | none => st
  | some transaction =>
    { st with
      pots := st.pots.map (fun p =>
        if p.id = transaction.potId then
          { p with currentTotal := p.currentTotal - transaction.amount }
        else p),
      transactions := st.transactions.filter (fun t => decide (t.id ≠ id)) }

/-- Sum of the stored ledger amounts of one pot. -/
def potTransactionsSum (st : DbState) (pid : String) : ℚ :=
  ((st.transactions.filter (fun t => t.potId == pid)).map (fun t => t.amount)).sum

/-- The balance invariant of the specification: every pot's running total is
its seeded starting value plus the sum of its stored ledger amounts. -/
def potBalanceOk (seed : String → ℚ) (st : DbState) : Prop :=
  ∀ p ∈ st.pots, p.currentTotal = seed p.id + potTransactionsSum st p.id

instance (seed : String → ℚ) (st : DbState) : Decidable (potBalanceOk seed st) := by
  unfold potBalanceOk
  infer_instance

/-- Claim C2 (code bug demonstration): pots A and B seeded at 0; a 100
transaction is created in A through the POST route — the invariant holds; the
PUT route then moves that transaction to B with the amount unchanged — the
invariant is broken for both pots, because the route updates the row's potId
but transfers no balance (the amount difference is 0, applied to the old pot). -/
theorem C2_balance_invariant_broken_by_pot_move :
    potBalanceOk (fun _ => 0)
        (createTransaction "u" "A" 100 ⟨2025, 3, 1⟩ none false false
          ⟨[], [⟨"A", "u", "PotA", 0⟩, ⟨"B", "u", "PotB", 0⟩], ["u"], [], 0⟩) ∧
      ¬ potBalanceOk (fun _ => 0)
        (updateTransaction "u" "txn-0" (some "B") none none none none none
          (createTransaction "u" "A" 100 ⟨2025, 3, 1⟩ none false false
            ⟨[], [⟨"A", "u", "PotA", 0⟩, ⟨"B", "u", "PotB", 0⟩], ["u"], [], 0⟩)) := by
  have hid : ("txn-" ++ toString 0 : String) = "txn-0" := rfl
  constructor
  · simp [potBalanceOk, potTransactionsSum, createTransaction, updateTransaction,
      List.find?, hid]
  · simp [potBalanceOk, potTransactionsSum, createTransaction, updateTransaction,
      List.find?, hid]

/-- date-fns `addMonths`: advance the month index by `i`, clamping the day of
month to the target month's length. -/
def addMonthsCivil (d : CivilDate) (i : ℕ) : CivilDate :=
  let M := d.year * 12 + (d.month - 1) + i
  ⟨M / 12, M % 12 + 1, min d.day (daysInMonth (M / 12) (M % 12 + 1))⟩

/-- date-fns `startOfMonth` on the civil form. -/
def startOfMonthCivil (d : CivilDate) : CivilDate := ⟨d.year, d.month, 1⟩

/-- date-fns `isSameMonth`: same year and same month. -/
def isSameMonth (a b : CivilDate) : Prop := a.year = b.year ∧ a.month = b.month

instance (a b : CivilDate) : Decidable (isSameMonth a b) := by
  unfold isSameMonth
  infer_instance

/-- The virtual monthly instance the forecaster emits for rule `recurring`,
`i` months past its anchor: synthetic id, the rule's pot, user and amount, the
monthly flag set. -/
def monthlyCandidate (recurring : Transaction) (i : ℕ) : Transaction :=
  ⟨"projected-monthly-" ++ recurring.id ++ "-" ++ toString i, recurring.userId,
    recurring.potId, recurring.amount, addMonthsCivil recurring.date i,
    recurring.description, true, false⟩

/-- The monthly half of `getProjectedRecurringTransactions` for one rule:
candidates 1..6 months past the anchor; a candidate dated before the start of
the current month is skipped; a candidate is skipped when a ledger transaction
with the same pot, the monthly flag set, the candidate's calendar month and
the anchor's day of month already exists. -/
def projectedMonthlyFor (today : CivilDate) (transactions : List Transaction)
    (recurring : Transaction) : List Transaction :=
  (List.range 6).filterMap (fun j =>
    if daysSinceEpoch (addMonthsCivil recurring.date (j + 1)) <
        daysSinceEpoch (startOfMonthCivil today) then none
    else if transactions.any (fun t => decide (t.potId = recurring.potId ∧
        t.repeatMonthly = true ∧
        isSameMonth t.date (addMonthsCivil recurring.date (j + 1)) ∧
        t.date.day = recurring.date.day)) then none
    else some (monthlyCandidate recurring (j + 1)))

/-- The weekly half of `getProjectedRecurringTransactions` for one rule:
candidates 1..26 weeks past the anchor, skipped before the start of the
current month; no deduplication against the ledger is performed. -/
def projectedWeeklyFor (today : CivilDate) (recurring : Transaction) :
    List Transaction :=
  (List.range 26).filterMap (fun j =>
    if daysSinceEpoch (addWeeksFromOriginal recurring.date (j + 1)) <
        daysSinceEpoch (startOfMonthCivil today) then none
    else some ⟨"projected-weekly-" ++ recurring.id ++ "-" ++ toString (j + 1),
      recurring.userId, recurring.potId, recurring.amount,
      addWeeksFromOriginal recurring.date (j + 1), recurring.description,
      false, true⟩)

/-- `getProjectedRecurringTransactions` of projections.ts (current version,
lines 226-312): the virtual monthly instances of every monthly rule followed
by the virtual weekly instances of every weekly rule. -/
def getProjectedRecurringTransactions (today : CivilDate)
    (transactions : List Transaction) : List Transaction :=
  (transactions.filter (fun t => t.repeatMonthly)).flatMap
      (projectedMonthlyFor today transactions) ++
    (transactions.filter (fun t => t.repeatWeekly)).flatMap (projectedWeeklyFor today)

theorem addMonthsCivil_monthIndex (d : CivilDate) (i : ℕ) :
    (addMonthsCivil d i).year * 12 + ((addMonthsCivil d i).month - 1) =
      d.year * 12 + (d.month - 1) + i := by
  unfold addMonthsCivil
  dsimp only
  omega

/-- Claim C5 (amended): the forecaster output is exactly the monthly
candidates followed by the weekly candidates, and for every monthly rule the
candidate `i` months past the anchor is emitted precisely when 1 ≤ i ≤ 6, the
candidate is not before the start of the current month, and no ledger
transaction with the same pot, the monthly-recurring flag SET, the candidate's
calendar month and the anchor's day of month exists.  (The original claim's
conclusion that scheduler-materialized occurrences are therefore not displayed
again fails: the scheduler writes its ledger rows with both repeat flags
cleared, so they never satisfy the dedup condition — see the
counterexample.) -/
theorem C5_forecaster_candidates_amended (today : CivilDate)
    (transactions : List Transaction) (recurring : Transaction) (i : ℕ) :
    (getProjectedRecurringTransactions today transactions =
        (transactions.filter (fun t => t.repeatMonthly)).flatMap
            (projectedMonthlyFor today transactions) ++
          (transactions.filter (fun t => t.repeatWeekly)).flatMap
            (projectedWeeklyFor today)) ∧
      (monthlyCandidate recurring i ∈ projectedMonthlyFor today transactions recurring ↔
        1 ≤ i ∧ i ≤ 6 ∧
          ¬ (daysSinceEpoch (addMonthsCivil recurring.date i) <
              daysSinceEpoch (startOfMonthCivil today)) ∧
          ¬ ∃ t ∈ transactions, t.potId = recurring.potId ∧ t.repeatMonthly = true ∧
              isSameMonth t.date (addMonthsCivil recurring.date i) ∧
              t.date.day = recurring.date.day) := by
  refine ⟨rfl, ?_⟩
  constructor
  · intro hmem
    obtain ⟨j, hj, hfj⟩ := List.mem_filterMap.mp hmem
    rw [List.mem_range] at hj
    split at hfj
    · exact Option.noConfusion hfj
    · split at hfj
      · exact Option.noConfusion hfj
      · rename_i hnb hner
        have hcand := Option.some.inj hfj
        have hdate := congrArg Transaction.date hcand
        have hidx := congrArg (fun c => c.year * 12 + (c.month - 1)) hdate
        simp only [monthlyCandidate] at hidx
        rw [addMonthsCivil_monthIndex, addMonthsCivil_monthIndex] at hidx
        have hij : j + 1 = i := by omega
        rw [hij] at hnb hner
        refine ⟨by omega, by omega, hnb, ?_⟩
        intro ⟨t, ht, hcond⟩
        exact hner (List.any_eq_true.mpr ⟨t, ht, decide_eq_true_eq.mpr hcond⟩)
  · intro ⟨h1, h6, hnb, hne⟩
    apply List.mem_filterMap.mpr
    refine ⟨i - 1, List.mem_range.mpr (by omega), ?_⟩
    have hi : i - 1 + 1 = i := by omega
    rw [hi]
    rw [if_neg hnb, if_neg]
    intro hany
    obtain ⟨t, ht, hcond⟩ := List.any_eq_true.mp hany
    exact hne ⟨t, ht, decide_eq_true_eq.mp hcond⟩

/-- Counterexample to C5 as stated: the scheduler materializes the May
occurrence of a monthly rule anchored 2025-03-15 (ledger row "auto-0", pot
"p", dated 2025-05-15, both repeat flags cleared), yet the forecaster, run on
2025-05-20, still emits the virtual instance for that same occurrence — the
dedup condition requires the monthly flag on the existing row, which
materialized rows never carry. -/
theorem C5_materialized_occurrence_still_displayed :
    (∃ t ∈ (processRecurringTransactions ⟨2025, 5, 15⟩
        ⟨[⟨"r1", "u", "p", 50, ⟨2025, 3, 15⟩, none, true, false⟩],
          [⟨"p", "u", "Pot", 0⟩], ["u"], [], 0⟩).1.transactions,
      t.id = "auto-0" ∧ t.potId = "p" ∧ t.date = ⟨2025, 5, 15⟩ ∧
        t.repeatMonthly = false ∧ t.repeatWeekly = false) ∧
      monthlyCandidate ⟨"r1", "u", "p", 50, ⟨2025, 3, 15⟩, none, true, false⟩ 2 ∈
        getProjectedRecurringTransactions ⟨2025, 5, 20⟩
          (processRecurringTransactions ⟨2025, 5, 15⟩
            ⟨[⟨"r1", "u", "p", 50, ⟨2025, 3, 15⟩, none, true, false⟩],
              [⟨"p", "u", "Pot", 0⟩], ["u"], [], 0⟩).1.transactions ∧
      (monthlyCandidate ⟨"r1", "u", "p", 50, ⟨2025, 3, 15⟩, none, true, false⟩ 2).date =
        ⟨2025, 5, 15⟩ := by
  refine ⟨?_, ?_, ?_⟩
  · decide
  · decide
  · decide

/-- JavaScript object write `obj[k] = v`: overwrite the entry when the key
exists, append it otherwise. -/
def objSet (m : List (String × ℚ)) (k : String) (v : ℚ) : List (String × ℚ) :=
  if m.any (fun kv => kv.1 == k) then
    m.map (fun kv => if kv.1 = k then (k, v) else kv)
  else m ++ [(k, v)]

/-- JavaScript read `obj[k] || d`: the stored value, or the default when the
key is absent. -/
def objGetD (m : List (String × ℚ)) (k : String) (d : ℚ) : ℚ :=
  match m.find? (fun kv => kv.1 == k) with
  | some kv => kv.2
  | none => d

/-- `getTotalSavings` of projections.ts (current version, lines 187-210):
initialize a per-pot total of 0 for every pot, add every transaction whose id
does not start with "projected-" into its pot's slot (creating the slot when
the potId matches no pot), and sum the object's values. -/
def getTotalSavings (pots : List SavingsPot) (transactions : List Transaction) : ℚ :=
  let actualTotals0 := pots.foldl (fun m p => objSet m p.id 0) ([] : List (String × ℚ))
  let actualTotals := transactions.foldl (fun m t =>
    if t.id.startsWith "projected-" then m
    else objSet m t.potId (objGetD m t.potId 0 + t.amount)) actualTotals0
  (actualTotals.map (fun kv => kv.2)).sum

/-- Keys of the association list are distinct (JavaScript object keys are). -/
def keysNodup (m : List (String × ℚ)) : Prop := (m.map (fun kv => kv.1)).Nodup

theorem keysNodup_objSet (m : List (String × ℚ)) (k : String) (v : ℚ)
    (h : keysNodup m) : keysNodup (objSet m k v) := by
  unfold objSet
  split
  · unfold keysNodup
    have hkeys : (m.map (fun kv => if kv.1 = k then (k, v) else kv)).map
        (fun kv => kv.1) = m.map (fun kv => kv.1) := by
      rw [List.map_map]
      apply List.map_congr_left
      intro kv _
      by_cases hk : kv.1 = k <;> simp [hk]
    rw [hkeys]
    exact h
  · rename_i habs
    unfold keysNodup
    rw [List.map_append]
    simp only [List.map_cons, List.map_nil]
    rw [List.nodup_append]
    refine ⟨h, List.nodup_singleton k, ?_⟩
    intro a ha hb
    rw [List.mem_singleton] at hb
    subst hb
    apply habs
    rw [List.any_eq_true]
    obtain ⟨kv, hkv, hkv1⟩ := List.mem_map.mp ha
    exact ⟨kv, hkv, by rw [beq_iff_eq]; exact hkv1⟩

theorem objSet_cons_ne (kv0 : String × ℚ) (m : List (String × ℚ)) (k : String) (v : ℚ)
    (h : kv0.1 ≠ k) : objSet (kv0 :: m) k v = kv0 :: objSet m k v := by
  unfold objSet
  rw [List.any_cons]
  have hbeq : (kv0.1 == k) = false := by
    rw [beq_eq_false_iff_ne]
    exact h
  rw [hbeq, Bool.false_or]
  split
  · rw [List.map_cons, if_neg h]
  · rw [List.cons_append]

theorem objGetD_cons_ne (kv0 : String × ℚ) (m : List (String × ℚ)) (k : String) (d : ℚ)
    (h : kv0.1 ≠ k) : objGetD (kv0 :: m) k d = objGetD m k d := by
  unfold objGetD
  have hfind : List.find? (fun kv => kv.1 == k) (kv0 :: m) =
      List.find? (fun kv => kv.1 == k) m :=
    List.find?_cons_of_neg _ (fun hc => h (eq_of_beq hc))
  rw [hfind]

theorem sumVals_objSet_add (m : List (String × ℚ)) (k : String) (a : ℚ)
    (h : keysNodup m) :
    ((objSet m k (objGetD m k 0 + a)).map (fun kv => kv.2)).sum =
      (m.map (fun kv => kv.2)).sum + a := by
  induction m with
  | nil =>
    unfold objSet objGetD
    simp
  | cons kv0 m ih =>
    have hnd : keysNodup m := by
      unfold keysNodup at h ⊢
      rw [List.map_cons] at h
      exact (List.nodup_cons.mp h).2
    have hnotin : kv0.1 ∉ m.map (fun kv => kv.1) := by
      unfold keysNodup at h
      rw [List.map_cons] at h
      exact (List.nodup_cons.mp h).1
    by_cases hk0 : kv0.1 = k
    · have hget : objGetD (kv0 :: m) k 0 = kv0.2 := by
        unfold objGetD
        have hfind : List.find? (fun kv => kv.1 == k) (kv0 :: m) = some kv0 :=
          List.find?_cons_of_pos _ (beq_iff_eq.mpr hk0)
        rw [hfind]
      have hmapid : m.map (fun kv => if kv.1 = k then (k, kv0.2 + a) else kv) = m := by
        have hcong : ∀ kv ∈ m, (if kv.1 = k then (k, kv0.2 + a) else kv) = kv := by
          intro kv hkv
          apply if_neg
          intro he
          apply hnotin
          rw [hk0, ← he]
          exact List.mem_map_of_mem (fun kv => kv.1) hkv
        rw [List.map_congr_left hcong, List.map_id']
      have hset : objSet (kv0 :: m) k (objGetD (kv0 :: m) k 0 + a) =
          (k, kv0.2 + a) :: m := by
        unfold objSet
        rw [List.any_cons, beq_iff_eq.mpr hk0, Bool.true_or, if_pos rfl,
          List.map_cons, if_pos hk0, hget, hmapid]
      rw [hset]
      simp only [List.map_cons, List.sum_cons]
      ring
    · have hget : objGetD (kv0 :: m) k 0 = objGetD m k 0 :=
        objGetD_cons_ne kv0 m k 0 hk0
      rw [objSet_cons_ne kv0 m k (objGetD (kv0 :: m) k 0 + a) hk0, hget]
      simp only [List.map_cons, List.sum_cons]
      rw [ih hnd]
      ring

theorem objSet_zero_vals (m : List (String × ℚ)) (k : String)
    (h : ∀ kv ∈ m, kv.2 = 0) : ∀ kv ∈ objSet m k 0, kv.2 = 0 := by
  unfold objSet
  split
  · intro kv hkv
    obtain ⟨kv0, hkv0, hkveq⟩ := List.mem_map.mp hkv
    by_cases hk : kv0.1 = k
    · rw [if_pos hk] at hkveq
      rw [← hkveq]
    · rw [if_neg hk] at hkveq
      rw [← hkveq]
      exact h kv0 hkv0
  · intro kv hkv
    rcases List.mem_append.mp hkv with hold | hnew
    · exact h kv hold
    · rw [List.mem_singleton] at hnew
      rw [hnew]

theorem init_totals (pots : List SavingsPot) :
    ∀ m : List (String × ℚ), keysNodup m → (∀ kv ∈ m, kv.2 = 0) →
      keysNodup (pots.foldl (fun m p => objSet m p.id 0) m) ∧
        ∀ kv ∈ pots.foldl (fun m p => objSet m p.id 0) m, kv.2 = 0 := by
  induction pots with
  | nil => intro m h1 h2; exact ⟨h1, h2⟩
  | cons p pots ih =>
    intro m h1 h2
    rw [List.foldl_cons]
    exact ih (objSet m p.id 0) (keysNodup_objSet m p.id 0 h1) (objSet_zero_vals m p.id h2)

theorem totals_fold_sum (transactions : List Transaction) :
    ∀ m : List (String × ℚ), keysNodup m →
      keysNodup (transactions.foldl (fun m t =>
        if t.id.startsWith "projected-" then m
        else objSet m t.potId (objGetD m t.potId 0 + t.amount)) m) ∧
      ((transactions.foldl (fun m t =>
          if t.id.startsWith "projected-" then m
          else objSet m t.potId (objGetD m t.potId 0 + t.amount)) m).map
        (fun kv => kv.2)).sum =
        (m.map (fun kv => kv.2)).sum +
          ((transactions.filter (fun t => !(t.id.startsWith "projected-"))).map
            (fun t => t.amount)).sum := by
  induction transactions with
  | nil => intro m h1; exact ⟨h1, by simp⟩
  | cons t txns ih =>
    intro m h1
    rw [List.foldl_cons]
    by_cases hproj : t.id.startsWith "projected-"
    · rw [if_pos hproj]
      obtain ⟨ha, hb⟩ := ih m h1
      refine ⟨ha, ?_⟩
      rw [hb, List.filter_cons_of_neg (by simp [hproj])]
    · rw [if_neg hproj]
      obtain ⟨ha, hb⟩ := ih (objSet m t.potId (objGetD m t.potId 0 + t.amount))
        (keysNodup_objSet m t.potId _ h1)
      refine ⟨ha, ?_⟩
      rw [hb, sumVals_objSet_add m t.potId t.amount h1,
        List.filter_cons_of_pos (by simp [hproj])]
      simp only [List.map_cons, List.sum_cons]
      ring

/-- Claim C10: `getTotalSavings` returns the sum of the amounts of all stored
transactions whose id does not start with "projected-", across all pots and
including transactions whose potId matches no existing pot; virtual forecast
instances never contribute. -/
theorem C10_getTotalSavings_sums_non_projected (pots : List SavingsPot)
    (transactions : List Transaction) :
    getTotalSavings pots transactions =
      ((transactions.filter (fun t => !(t.id.startsWith "projected-"))).map
        (fun t => t.amount)).sum := by
  unfold getTotalSavings
  obtain ⟨hnd0, hzero0⟩ := init_totals pots [] (by unfold keysNodup; simp) (by simp)
  obtain ⟨_, hsum⟩ := totals_fold_sum transactions _ hnd0
  rw [hsum]
  have hz : ((pots.foldl (fun m p => objSet m p.id 0) []).map (fun kv => kv.2)).sum
      = 0 := by
    apply List.sum_eq_zero
    intro x hx
    obtain ⟨kv, hkv, hkveq⟩ := List.mem_map.mp hx
    rw [← hkveq]
    exact hzero0 kv hkv
  rw [hz, zero_add]
